import Mathlib

/-!
Shallow embedding of the SST (Sorted String Table) reading path of the
agatedb repository (files `src/table.rs` and `src/wal.rs`), together with
spec-modelled stand-ins for the crate-internal modules that the table code
uses but whose sources are not part of the repository snapshot
(`checksum`, `proto::meta`, the block iterator and the builder).

Bytes are modelled as `Nat` (reduced mod 256 at every decoding site),
byte buffers as `List Nat`, and fallible Rust code as values of `RResult`:
`ok` models `Ok`, `err` models `Err`, and `panicked` models a Rust panic
(unchecked arithmetic underflow, out-of-bounds indexing, `unimplemented!`).
-/

namespace Agate

/-- Structured counterpart of the `Error::TableRead(String)` messages that
`table.rs` produces; each constructor stands for one format string of the
source. -/
inductive TRMsg where
  /-- models the message `"checksum length less than zero"` -/
  | checksumLenNegative
  /-- models the message `"out of range, offset={}, size={}, len={}"` -/
  | outOfRange (offset size len : Nat)
  /-- models the message `"block out of index"` -/
  | blockOutOfIndex
  /-- models the message `"failed to get offset block {}"` -/
  | failedGetOffsetBlock (idx : Nat)
  /-- models the message `"invalid checksum length"` -/
  | invalidChecksumLength
  /-- models the message `"failed to initialize biggest for table {}"` -/
  | failedInitBiggest (filename : String)
  deriving Repr, DecidableEq

/-- The crate error type (`crate::Error`); the enum itself is not under
`src/`, its variants are the ones named by the spec's error taxonomy and
used by `table.rs`. -/
inductive Error where
  | InvalidFilename (name : String)
  | TableRead (msg : TRMsg)
  | DecodeError
  | ChecksumMismatch
  | OutOfOrderKey
  | EmptyTable
  | IoError
  deriving Repr, DecidableEq

/-- Outcome of running a fallible piece of Rust code: success, an `Err`
value, or a panic (arithmetic underflow, out-of-bounds index,
`unimplemented!`). -/
inductive RResult (α : Type) where
  | ok (a : α)
  | err (e : Error)
  | panicked (msg : String)
  deriving Repr, DecidableEq

def RResult.bind {α β : Type} : RResult α → (α → RResult β) → RResult β
  | .ok a, f => f a
  | .err e, _ => .err e
  | .panicked m, _ => .panicked m

instance : Monad RResult where
  pure := .ok
  bind := RResult.bind

def RResult.isOk {α : Type} : RResult α → Bool
  | .ok _ => true
  | _ => false

def RResult.map {α β : Type} (f : α → β) : RResult α → RResult β
  | .ok a => .ok (f a)
  | .err e => .err e
  | .panicked m => .panicked m

/-- Rust `usize` subtraction `a - b`: panics on underflow (debug overflow
check; in release the wrapped value makes the following slice operation
panic instead). -/
def checkedSub (a b : Nat) : RResult Nat :=
  if b ≤ a then .ok (a - b) else .panicked "attempt to subtract with overflow"

/-- `Buf::get_u32` (big-endian u32) on the first four bytes of a buffer. -/
def getU32 : List Nat → Nat
  | a :: b :: c :: d :: _ =>
    (a % 256) * 2 ^ 24 + (b % 256) * 2 ^ 16 + (c % 256) * 2 ^ 8 + d % 256
  | _ => 0

/-- `Buf::get_u32_le` (little-endian u32) on the first four bytes. -/
def getU32le : List Nat → Nat
  | a :: b :: c :: d :: _ =>
    (d % 256) * 2 ^ 24 + (c % 256) * 2 ^ 16 + (b % 256) * 2 ^ 8 + a % 256
  | _ => 0

/-- little-endian u16 on the first two bytes. -/
def getU16le : List Nat → Nat
  | a :: b :: _ => (b % 256) * 2 ^ 8 + a % 256
  | _ => 0

/-- big-endian 4-byte encoding of a u32 value. -/
def be32 (n : Nat) : List Nat :=
  [n / 2 ^ 24 % 256, n / 2 ^ 16 % 256, n / 2 ^ 8 % 256, n % 256]

/-! ## Spec-modelled checksum machinery

Modelled from the spec: the `checksum` module and the `proto::meta`
messages are crate code that is not under `src/`.  The spec fixes a
checksum message `{ algorithm : enum, sum : bytes }` serialized as a
tagged (protobuf) structure, with CRC-32 Castagnoli the mandatory
algorithm, verified by recomputing the declared algorithm over the data
and comparing (`ChecksumMismatch` on a differing digest). -/

/-- one shift-and-conditionally-xor step of reflected CRC-32C
(polynomial 0x82F63B78). -/
def crcStep (c : Nat) : Nat :=
  if c % 2 = 1 then Nat.xor (c / 2) 0x82F63B78 else c / 2

def crcSteps : Nat → Nat → Nat
  | 0, c => c
  | n + 1, c => crcSteps n (crcStep c)

def crc32cUpdate (crc b : Nat) : Nat := crcSteps 8 (Nat.xor crc (b % 256))

/-- CRC-32 Castagnoli over a byte buffer. -/
def crc32c (data : List Nat) : Nat :=
  Nat.xor (data.foldl crc32cUpdate 0xFFFFFFFF) 0xFFFFFFFF

/-- Modelled from the spec: the checksum message
`{ algorithm : enum, sum : bytes }` (`proto::meta::Checksum`; its proto
definition is not under `src/`). Algorithm 0 is CRC-32 Castagnoli. -/
structure Checksum where
  algo : Nat
  sum : List Nat
  deriving Repr, DecidableEq

/-- Modelled from the spec: one `(offset, len, base_key)` entry of the
table index (`proto::meta::BlockOffset`; not under `src/`). -/
structure BlockOffset where
  key : List Nat
  offset : Nat
  len : Nat
  deriving Repr, DecidableEq, Inhabited

/-- Modelled from the spec: the serialized table index
(`proto::meta::TableIndex`; not under `src/`): the ordered block-offset
array, `key_count`, `max_version` and an optional bloom-filter blob. -/
structure TableIndex where
  offsets : List BlockOffset
  key_count : Nat
  max_version : Nat
  bloom_filter : List Nat
  deriving Repr, DecidableEq, Inhabited

/-- one decoded protobuf field value (wire types 0, 1, 2 and 5). -/
inductive PBVal where
  | vint (n : Nat)
  | lde (bs : List Nat)
  | f64 (bs : List Nat)
  | f32 (bs : List Nat)
  deriving Repr, DecidableEq

/-- protobuf base-128 varint; returns the value and the remaining bytes. -/
def decodeVarintAux : List Nat → Nat → Nat → Option (Nat × List Nat)
  | [], _, _ => none
  | b :: rest, shift, acc =>
    let acc' := acc + b % 128 * 2 ^ shift
    if b % 256 < 128 then some (acc', rest) else decodeVarintAux rest (shift + 7) acc'

def decodeVarint (l : List Nat) : Option (Nat × List Nat) :=
  decodeVarintAux l 0 0

/-- Modelled from the spec: split a protobuf message into its
`(field number, value)` list; fails (like `prost`) on field number 0, on
group wire types and on truncated input. -/
def pbFieldsAux : Nat → List Nat → Option (List (Nat × PBVal))
  | _, [] => some []
  | 0, _ :: _ => none
  | fuel + 1, l => do
    let (tag, r1) ← decodeVarint l
    let field := tag / 8
    if field = 0 then none else
    match tag % 8 with
    | 0 => do
      let (v, r2) ← decodeVarint r1
      let fs ← pbFieldsAux fuel r2
      some ((field, .vint v) :: fs)
    | 1 =>
      if r1.length < 8 then none else do
        let fs ← pbFieldsAux fuel (r1.drop 8)
        some ((field, .f64 (r1.take 8)) :: fs)
    | 2 => do
      let (len, r2) ← decodeVarint r1
      if r2.length < len then none else do
        let fs ← pbFieldsAux fuel (r2.drop len)
        some ((field, .lde (r2.take len)) :: fs)
    | 5 =>
      if r1.length < 4 then none else do
        let fs ← pbFieldsAux fuel (r1.drop 4)
        some ((field, .f32 (r1.take 4)) :: fs)
    | _ => none

def pbFields (l : List Nat) : Option (List (Nat × PBVal)) :=
  pbFieldsAux l.length l

/-- Modelled from the spec: decode a `Checksum` message; `algo` is field 1
(varint), `sum` is field 2 (bytes); later occurrences overwrite, unknown
fields are skipped, a known field with the wrong wire type is an error. -/
def decodeChecksumFields : List (Nat × PBVal) → Checksum → Option Checksum
  | [], c => some c
  | (1, .vint v) :: rest, c => decodeChecksumFields rest { c with algo := v }
  | (1, _) :: _, _ => none
  | (2, .lde bs) :: rest, c => decodeChecksumFields rest { c with sum := bs }
  | (2, _) :: _, _ => none
  | _ :: rest, c => decodeChecksumFields rest c

def decodeChecksum (l : List Nat) : Option Checksum := do
  let fs ← pbFields l
  decodeChecksumFields fs { algo := 0, sum := [] }

/-- Modelled from the spec: decode a `BlockOffset` message; `key` is
field 1 (bytes), `offset` field 2 (varint), `len` field 3 (varint). -/
def decodeBlockOffsetFields : List (Nat × PBVal) → BlockOffset → Option BlockOffset
  | [], bo => some bo
  | (1, .lde bs) :: rest, bo => decodeBlockOffsetFields rest { bo with key := bs }
  | (1, _) :: _, _ => none
  | (2, .vint v) :: rest, bo => decodeBlockOffsetFields rest { bo with offset := v }
  | (2, _) :: _, _ => none
  | (3, .vint v) :: rest, bo => decodeBlockOffsetFields rest { bo with len := v }
  | (3, _) :: _, _ => none
  | _ :: rest, bo => decodeBlockOffsetFields rest bo

def decodeBlockOffset (l : List Nat) : Option BlockOffset := do
  let fs ← pbFields l
  decodeBlockOffsetFields fs { key := [], offset := 0, len := 0 }

/-- Modelled from the spec: decode a `TableIndex` message; `offsets` is
repeated field 1 (messages), `key_count` field 2 (varint), `max_version`
field 3 (varint), `bloom_filter` field 4 (bytes). -/
def decodeTableIndexFields : List (Nat × PBVal) → TableIndex → Option TableIndex
  | [], ti => some ti
  | (1, .lde bs) :: rest, ti => do
    let bo ← decodeBlockOffset bs
    decodeTableIndexFields rest { ti with offsets := ti.offsets ++ [bo] }
  | (1, _) :: _, _ => none
  | (2, .vint v) :: rest, ti => decodeTableIndexFields rest { ti with key_count := v }
  | (2, _) :: _, _ => none
  | (3, .vint v) :: rest, ti => decodeTableIndexFields rest { ti with max_version := v }
  | (3, _) :: _, _ => none
  | (4, .lde bs) :: rest, ti => decodeTableIndexFields rest { ti with bloom_filter := bs }
  | (4, _) :: _, _ => none
  | _ :: rest, ti => decodeTableIndexFields rest ti

def decodeTableIndex (l : List Nat) : Option TableIndex := do
  let fs ← pbFields l
  decodeTableIndexFields fs { offsets := [], key_count := 0, max_version := 0, bloom_filter := [] }

/-- `Checksum::decode` as used by `table.rs` (a `prost` decode failure
converts into `Error::DecodeError`). -/
def checksumDecode (l : List Nat) : RResult Checksum :=
  match decodeChecksum l with
  | some c => .ok c
  | none => .err .DecodeError

/-- Modelled from the spec: `checksum::calculate_checksum` — the digest
bytes of the declared algorithm (0 = CRC-32 Castagnoli, big-endian
digest); other algorithms are not supported by the model. -/
def calculate_checksum (data : List Nat) (algo : Nat) : Option (List Nat) :=
  if algo = 0 then some (be32 (crc32c data)) else none

/-- Modelled from the spec: `checksum::verify_checksum` — recompute the
declared algorithm over `data` and compare with the stored digest,
failing with `ChecksumMismatch`. -/
def verify_checksum (data : List Nat) (expected : Checksum) : RResult Unit :=
  match calculate_checksum data expected.algo with
  | some digest => if digest = expected.sum then .ok () else .err .ChecksumMismatch
  | none => .err .ChecksumMismatch

/-! ## The table code of `src/table.rs` -/

/-- `MmapFile`: SST data backed by a file on disk (modelled by its name
and byte content) or by an in-memory buffer. -/
inductive MmapFile where
  | file (name : String) (data : List Nat)
  | memory (data : List Nat)
  deriving Repr, DecidableEq

def MmapFile.is_in_memory : MmapFile → Bool
  | .file _ _ => false
  | .memory _ => true

/-- `TableInner::bytes`: read `size` bytes at `offset`.  The in-memory
branch rejects out-of-range reads with `TableRead("out of range, ...")`;
the file branch seeks and `read_exact`s, which fails with an I/O error
when fewer than `size` bytes remain. -/
def MmapFile.bytes : MmapFile → Nat → Nat → RResult (List Nat)
  | .memory data, offset, size =>
    if data.length < offset + size then
      .err (.TableRead (.outOfRange offset size data.length))
    else .ok ((data.drop offset).take size)
  | .file _ data, offset, size =>
    if data.length < offset + size then .err .IoError
    else .ok ((data.drop offset).take size)

/-- `TableInner` (the fields used on the reading path; the unused
`opt: Options` is omitted). -/
structure TableInner where
  file : MmapFile
  table_size : Nat
  smallest : List Nat
  biggest : List Nat
  id : Nat
  checksum : List Nat
  estimated_size : Nat
  index : TableIndex
  index_start : Nat
  index_len : Nat
  deriving Repr, DecidableEq

def TableInner.read (t : TableInner) (offset size : Nat) : RResult (List Nat) :=
  t.file.bytes offset size

def TableInner.filename (t : TableInner) : String :=
  match t.file with
  | .memory _ => "<memtable>"
  | .file name _ => name

def TableInner.fetch_index (t : TableInner) : TableIndex := t.index

def TableInner.offsets_length (t : TableInner) : Nat := t.fetch_index.offsets.length

def TableInner.offsets (t : TableInner) (idx : Nat) : Option BlockOffset :=
  t.fetch_index.offsets.get? idx

def TableInner.key_count (t : TableInner) : Nat := t.fetch_index.key_count

def TableInner.read_table_index (t : TableInner) : RResult TableIndex := do
  let data ← t.read t.index_start t.index_len
  match decodeTableIndex data with
  | some ti => .ok ti
  | none => .err .DecodeError

/-- `TableInner::init_index`: walk the footer tail-ward — `chksum_len`
(big-endian u32, last 4 bytes), the index checksum, `idx_len` (big-endian
u32), the index itself (verified against the checksum and decoded) — and
return the updated table together with `index.offsets[0]` (a panic when
the offsets array is empty). -/
def TableInner.init_index (t : TableInner) : RResult (TableInner × BlockOffset) := do
  let read_pos := t.table_size
  let read_pos ← checkedSub read_pos 4
  let buf ← t.read read_pos 4
  let checksum_len := getU32 buf
  if 2 ^ 31 ≤ checksum_len then .err (.TableRead .checksumLenNegative) else do
  let read_pos ← checkedSub read_pos checksum_len
  let buf ← t.read read_pos checksum_len
  let chksum ← checksumDecode buf
  let read_pos ← checkedSub read_pos 4
  let buf ← t.read read_pos 4
  let index_len := getU32 buf
  let read_pos ← checkedSub read_pos index_len
  let index_start := read_pos
  let t := { t with index_len := index_len, index_start := index_start }
  let data ← t.read read_pos index_len
  let _ ← verify_checksum data chksum
  let index ← t.read_table_index
  let t := { t with index := index, estimated_size := t.table_size % 2 ^ 32 }
  match t.index.offsets with
  | [] => .panicked "index out of bounds"
  | ko :: _ => .ok (t, ko)

/-- `Block`: one decoded block as produced by `TableInner::block`. -/
structure Block where
  offset : Nat
  data : List Nat
  checksum : List Nat
  entries_index_start : Nat
  entry_offsets : List Nat
  checksum_len : Nat
  deriving Repr, DecidableEq

/-- the loop decoding `num_entries` little-endian u32 entry offsets. -/
def decodeOffsets : List Nat → Nat → List Nat
  | _, 0 => []
  | l, n + 1 => getU32le (l.take 4) :: decodeOffsets (l.drop 4) n

/-- the raw bytes `[offset, offset+len)` of the `idx`-th block, as read
from the backing store. -/
def TableInner.blockRaw (t : TableInner) (idx : Nat) : RResult (List Nat) :=
  match t.offsets idx with
  | some bo => t.read bo.offset bo.len
  | none => .err (.TableRead (.failedGetOffsetBlock idx))

/-- `TableInner::block`: bounds-check the block index, read the block's
byte range, and parse its tail (`chksum_len` big-endian, checksum bytes,
`num_entries` big-endian, the little-endian entry-offsets array). -/
def TableInner.block (t : TableInner) (idx : Nat) (_use_cache : Bool) : RResult Block := do
  if t.offsets_length ≤ idx then .err (.TableRead .blockOutOfIndex) else do
  match t.offsets idx with
  | none => .err (.TableRead (.failedGetOffsetBlock idx))
  | some block_offset => do
    let offset := block_offset.offset
    let data ← t.read offset block_offset.len
    let read_pos ← checkedSub data.length 4
    let checksum_len := getU32 ((data.drop read_pos).take 4)
    if data.length < checksum_len then .err (.TableRead .invalidChecksumLength) else do
    let read_pos ← checkedSub read_pos checksum_len
    let checksum := (data.drop read_pos).take checksum_len
    let read_pos ← checkedSub read_pos 4
    let num_entries := getU32 ((data.drop read_pos).take 4)
    let entries_index_start ← checkedSub read_pos (num_entries * 4)
    let entry_offsets := decodeOffsets ((data.drop entries_index_start).take (num_entries * 4)) num_entries
    .ok { offset := offset
          entries_index_start := entries_index_start
          data := data.take (read_pos + 4)
          entry_offsets := entry_offsets
          checksum_len := checksum_len
          checksum := checksum }

/-- `Block::verify_checksum` as written in `table.rs`: it decodes the
checksum message from `self.data` (not from the stored `self.checksum`)
and verifies `self.data` against it. -/
def Block.verify_checksum (b : Block) : RResult Unit := do
  let chksum ← checksumDecode b.data
  Agate.verify_checksum b.data chksum

/-- `TableInner::max_version` is `unimplemented!()`. -/
def TableInner.max_version (_t : TableInner) : RResult Nat :=
  .panicked "not implemented"

/-! ## Spec-modelled block-entry decoding and the iterator probe

Modelled from the spec: the block iterator module (`table/iterator.rs`)
is not under `src/`.  Entries are prefix-compressed against the block's
base key: a little-endian u16 `overlap_len`, a little-endian u16
`diff_len`, the `diff` bytes, then the value bytes; the base key is
entry 0's key reconstructed with `overlap_len = 0`. -/

/-- the byte region of entry `i`: from `entry_offsets[i]` up to
`entry_offsets[i+1]` (or `entries_index_start` for the last entry). -/
def Block.entryRegion (b : Block) (i : Nat) : List Nat :=
  let s := b.entry_offsets.getD i 0
  let e := if i + 1 < b.entry_offsets.length
    then b.entry_offsets.getD (i + 1) 0
    else b.entries_index_start
  (b.data.drop s).take (e - s)

/-- parse one entry header: `(overlap_len, diff)`. -/
def parseEntry (region : List Nat) : Option (Nat × List Nat) :=
  match region with
  | o1 :: o2 :: d1 :: d2 :: rest =>
    let overlap := getU16le [o1, o2]
    let diff_len := getU16le [d1, d2]
    if rest.length < diff_len then none else some (overlap, rest.take diff_len)
  | _ => none

/-- Modelled from the spec: the base key of a block is entry 0's key
reconstructed with `overlap_len = 0`, i.e. its `diff` bytes. -/
def Block.baseKey (b : Block) : Option (List Nat) :=
  (parseEntry (b.entryRegion 0)).map (·.2)

/-- Modelled from the spec: the reconstructed key of entry `i`:
`base_key[..overlap_len] ++ diff`. -/
def Block.entryKey (b : Block) (i : Nat) : Option (List Nat) := do
  let base ← b.baseKey
  let (overlap, diff) ← parseEntry (b.entryRegion i)
  some (base.take overlap ++ diff)

/-- Modelled from the spec: the biggest-key probe of
`init_biggest_and_smallest` — a reversed `NOCACHE` iterator is rewound,
i.e. the last block is loaded and its last entry's key decoded; any
failure on the way leaves the iterator invalid (`none`). -/
def TableInner.iterLastKey (t : TableInner) : Option (List Nat) :=
  if t.offsets_length = 0 then none
  else match t.block (t.offsets_length - 1) false with
    | .ok b =>
      if b.entry_offsets.length = 0 then none
      else b.entryKey (b.entry_offsets.length - 1)
    | _ => none

/-- `TableInner::init_biggest_and_smallest`: run `init_index`, set
`smallest` to the returned first block offset's base key, then set
`biggest` from the reversed iterator probe (a `TableRead` error when the
probe ends invalid). -/
def TableInner.init_biggest_and_smallest (t : TableInner) : RResult TableInner := do
  let (t, ko) ← t.init_index
  let t := { t with smallest := ko.key }
  match t.iterLastKey with
  | none => .err (.TableRead (.failedInitBiggest t.filename))
  | some k => .ok { t with biggest := k }

/-- `parse_file_id`: accept only names ending in `".sst"` whose stem
parses as a `u64`, otherwise `InvalidFilename`. -/
def sstSuffix (cs : List Char) : Bool :=
  match cs.reverse with
  | 't' :: 's' :: 's' :: '.' :: _ => true
  | _ => false

/-- digit folding used by `u64::from_str`. -/
def digitsVal (ds : List Char) : Nat :=
  ds.foldl (fun acc c => acc * 10 + (c.toNat - 48)) 0

/-- `u64::from_str` strips one optional leading `'+'` (a leading `'-'` is
not stripped for unsigned types and fails as a non-digit below). -/
def stripPlus (cs : List Char) : List Char :=
  match cs with
  | c :: rest => if c = '+' then rest else cs
  | [] => cs

/-- Rust `str::parse::<u64>`: an optional leading `'+'`, then one or more
ASCII digits, overflow-checked against `2^64`. -/
def parseU64 (cs : List Char) : Option Nat :=
  let ds := stripPlus cs
  if ds.isEmpty then none
  else if ds.all Char.isDigit then
    if digitsVal ds < 2 ^ 64 then some (digitsVal ds) else none
  else none

def parse_file_id (name : String) : RResult Nat :=
  if ¬ sstSuffix name.data then .err (.InvalidFilename name)
  else match parseU64 (name.data.take (name.data.length - 4)) with
    | some id => .ok id
    | none => .err (.InvalidFilename name)

/-! ## The `Table` constructors -/

namespace Table

/-- `Table::open_in_memory` (via `TableInner::open_in_memory`). -/
def open_in_memory (data : List Nat) (id : Nat) : RResult TableInner :=
  let inner : TableInner :=
    { file := .memory data
      table_size := data.length
      smallest := []
      biggest := []
      id := id
      checksum := []
      estimated_size := 0
      index := default
      index_start := 0
      index_len := 0 }
  inner.init_biggest_and_smallest

/-- `Table::open` (via `TableInner::open`): parse the file id from the
name, then initialize from the file's byte content. -/
def openFile (name : String) (content : List Nat) : RResult TableInner := do
  let id ← parse_file_id name
  let inner : TableInner :=
    { file := .file name content
      table_size := content.length
      smallest := []
      biggest := []
      id := id
      checksum := []
      estimated_size := 0
      index := default
      index_start := 0
      index_len := 0 }
  inner.init_biggest_and_smallest

end Table

/-! ## The WAL segment of `src/wal.rs` -/

/-- Modelled from the spec: an entry handed to the WAL (`structs::Entry`
is not under `src/`; the spec's encoding mentions its key and value). -/
structure Entry where
  key : List Nat
  value : List Nat
  deriving Repr, DecidableEq

structure Wal where
  file_id : Nat
  path : String
  deriving Repr, DecidableEq

/-- `Wal::open`: opens (append, create) the segment file and returns the
`Wal` value. -/
def Wal.open (file_id : Nat) (path : String) : RResult Wal :=
  .ok { file_id := file_id, path := path }

/-- `Wal::write_entry` is `unimplemented!()`. -/
def Wal.write_entry (_w : Wal) (_e : Entry) : RResult Unit :=
  .panicked "not implemented"

/-! ## Concrete SST buffers used as witnesses and failing inputs -/

/-- the payload of a one-entry block: the entry
`(overlap_len = 0, diff_len = 2, diff = "ab")`, the entry-offsets array
`[0]` (little-endian) and the entry count `1` (big-endian). -/
def blockPayload : List Nat :=
  [0, 0, 2, 0, 97, 98] ++ [0, 0, 0, 0] ++ [0, 0, 0, 1]

/-- a complete well-formed one-block, one-entry SST buffer (54 bytes):
block (payload, its checksum message, `chksum_len = 8`), index (one
`BlockOffset (key "ab", offset 0, len 26)`, `key_count 1`), `idx_len =
12`, index checksum message, `chksum_len = 8`.  The two CRC-32C digests
are `[216,121,204,62]` (block) and `[143,28,144,170]` (index). -/
def tbuf1 : List Nat :=
  blockPayload ++ [8, 0, 18, 4, 216, 121, 204, 62] ++ [0, 0, 0, 8]
    ++ [10, 8, 10, 2, 97, 98, 16, 0, 24, 26, 16, 1] ++ [0, 0, 0, 12]
    ++ [8, 0, 18, 4, 143, 28, 144, 170] ++ [0, 0, 0, 8]

/-- a well-framed SST with an empty index (a table with no entries):
empty index (`idx_len = 0`), a correct checksum message over the empty
index, `chksum_len = 8`. -/
def tbuf0 : List Nat :=
  [0, 0, 0, 0] ++ [8, 0, 18, 4, 0, 0, 0, 0] ++ [0, 0, 0, 8]

/-- an 8-byte buffer whose trailing `chksum_len` field decodes to 5,
addressing byte positions below zero (the checksum would span
`[-1, 4)`). -/
def tbufUnderflow : List Nat := [0, 0, 0, 0, 0, 0, 0, 5]

/-- the index of `tbuf1` after decoding. -/
def idxT1 : TableIndex :=
  { offsets := [{ key := [97, 98], offset := 0, len := 26 }]
    key_count := 1
    max_version := 0
    bloom_filter := [] }

/-- the table value obtained from `Table::open_in_memory(tbuf1, 1)`. -/
def tfullT1 : TableInner :=
  { file := .memory tbuf1, table_size := 54, smallest := [97, 98]
    biggest := [97, 98], id := 1, checksum := [], estimated_size := 54
    index := idxT1, index_start := 26, index_len := 12 }

/-- the table value after `init_index` but before the smallest/biggest
fields are filled in. -/
def tmidT1 : TableInner :=
  { file := .memory tbuf1, table_size := 54, smallest := []
    biggest := [], id := 1, checksum := [], estimated_size := 54
    index := idxT1, index_start := 26, index_len := 12 }

/-- the freshly constructed table value before `init_biggest_and_smallest`
runs (as built by `open_in_memory`). -/
def innerT1 : TableInner :=
  { file := .memory tbuf1, table_size := 54, smallest := []
    biggest := [], id := 1, checksum := [], estimated_size := 0
    index := default, index_start := 0, index_len := 0 }

/-- the block returned by `block(0)` on `tbuf1`. -/
def blockT1 : Block :=
  { offset := 0
    data := [0, 0, 2, 0, 97, 98, 0, 0, 0, 0, 0, 0, 0, 1]
    checksum := [8, 0, 18, 4, 216, 121, 204, 62]
    entries_index_start := 6
    entry_offsets := [0]
    checksum_len := 8 }

/-- the raw byte range `[0, 26)` of block 0 of `tbuf1`. -/
def blockRawT1 : List Nat :=
  [0, 0, 2, 0, 97, 98, 0, 0, 0, 0, 0, 0, 0, 1,
   8, 0, 18, 4, 216, 121, 204, 62, 0, 0, 0, 8]

/-- claim-side reading of C4's "the stem before `.sst` is the base-10
decimal representation of a u64 value id": a nonempty all-digit string
denoting `id`, with `id` in u64 range. -/
def stemIsDecimalU64 (s : List Char) (id : Nat) : Prop :=
  s ≠ [] ∧ (∀ c ∈ s, c.isDigit = true) ∧ digitsVal s = id ∧ id < 2 ^ 64

instance (s : List Char) (id : Nat) : Decidable (stemIsDecimalU64 s id) := by
  unfold stemIsDecimalU64; infer_instance

/-- the acceptance set of Rust's `u64::from_str`: an optional leading
`'+'` followed by one or more ASCII digits, value below `2^64`. -/
def rustParsesU64 (s : List Char) (id : Nat) : Prop :=
  ∃ ds, (s = ds ∨ s = '+' :: ds) ∧ ds ≠ [] ∧ (∀ c ∈ ds, c.isDigit = true) ∧
    digitsVal ds = id ∧ id < 2 ^ 64

/-! ## Helper lemmas -/

theorem RResult.pure_eq {α : Type} (a : α) : (pure a : RResult α) = .ok a := rfl

@[simp] theorem RResult.ok_bind {α β : Type} (a : α) (f : α → RResult β) :
    RResult.bind (.ok a) f = f a := rfl

@[simp] theorem RResult.err_bind {α β : Type} (e : Error) (f : α → RResult β) :
    RResult.bind (.err e) f = .err e := rfl

@[simp] theorem RResult.panicked_bind {α β : Type} (m : String) (f : α → RResult β) :
    RResult.bind (.panicked m) f = .panicked m := rfl

@[simp] theorem RResult.monad_bind {α β : Type} (x : RResult α) (f : α → RResult β) :
    x >>= f = RResult.bind x f := rfl

theorem checkedSub_ok {a b c : Nat} : checkedSub a b = .ok c ↔ b ≤ a ∧ c = a - b := by
  unfold checkedSub
  split
  · simp; omega
  · simp; omega

def MmapFile.dataOf : MmapFile → List Nat
  | .file _ d => d
  | .memory d => d

theorem MmapFile.bytes_ok {f : MmapFile} {o s : Nat} {raw : List Nat} :
    f.bytes o s = .ok raw ↔ o + s ≤ f.dataOf.length ∧ raw = (f.dataOf.drop o).take s := by
  cases f <;> simp only [MmapFile.bytes, MmapFile.dataOf] <;> split <;>
    rename_i hlt <;> constructor <;> intro h
  · simp at h
  · omega
  · injection h with h
    exact ⟨by omega, h.symm⟩
  · rw [h.2]
  · simp at h
  · omega
  · injection h with h
    exact ⟨by omega, h.symm⟩
  · rw [h.2]

theorem getU32_take4 (l : List Nat) : getU32 (l.take 4) = getU32 l := by
  rcases l with _ | ⟨a, _ | ⟨b, _ | ⟨c, _ | ⟨d, rest⟩⟩⟩⟩ <;> rfl

theorem decodeOffsets_length (n : Nat) (l : List Nat) :
    (decodeOffsets l n).length = n := by
  induction n generalizing l with
  | zero => rfl
  | succ k ih => simp [decodeOffsets, ih]

theorem decodeOffsets_getD (n : Nat) (l : List Nat) (i : Nat) (h : i < n) :
    (decodeOffsets l n).getD i 0 = getU32le ((l.drop (4 * i)).take 4) := by
  induction n generalizing l i with
  | zero => omega
  | succ k ih =>
    cases i with
    | zero => simp [decodeOffsets]
    | succ j =>
      have hj : j < k := by omega
      simp only [decodeOffsets, List.getD_cons_succ, ih (l.drop 4) j hj, List.drop_drop]
      have h4 : 4 + 4 * j = 4 * (j + 1) := by ring
      rw [h4]

/-! ## Claim theorems -/

/-- Claim C1 (code_bug evidence): on the 8-byte buffer
`[0,0,0,0,0,0,0,5]` — whose trailing `chksum_len` field (5) addresses
positions outside `[0, 8)` — both `open_in_memory` and `open` panic on a
`usize` subtraction underflow instead of returning an error. -/
theorem c1_open_panics_on_underflow :
    Table.open_in_memory tbufUnderflow 1 = .panicked "attempt to subtract with overflow" ∧
    Table.openFile "5.sst" tbufUnderflow = .panicked "attempt to subtract with overflow" := by
  constructor <;> decide

set_option maxRecDepth 100000 in
/-- Claim C2 (code_bug evidence): on the block obtained from
`Table::block(0)` of the well-formed table `tbuf1`, the stored checksum
message does declare CRC-32C and its digest does match the block's data
(first conjunct), yet `Block::verify_checksum` fails with `DecodeError`
because the source decodes the checksum message from `self.data` instead
of from the stored `self.checksum` (second conjunct). -/
theorem c2_verify_checksum_wrong_source :
    ((Table.open_in_memory tbuf1 1).bind fun t =>
      (t.block 0 true).bind fun b =>
        (checksumDecode b.checksum).bind fun c => verify_checksum b.data c) = .ok () ∧
    ((Table.open_in_memory tbuf1 1).bind fun t =>
      (t.block 0 true).bind fun b => b.verify_checksum) = .err .DecodeError := by
  constructor <;> decide

/-- Claim C3 (code_bug evidence): on the well-framed SST `tbuf0` whose
index contains no block offsets, `open_in_memory` panics indexing
`index.offsets[0]` instead of returning the `EmptyTable` error. -/
theorem c3_empty_table_panics :
    Table.open_in_memory tbuf0 1 = .panicked "index out of bounds" := by
  decide

set_option maxRecDepth 100000 in
/-- Claim C8 (counterexample): `tbuf1` opens successfully, yet
`max_version()` on the opened table panics (`unimplemented!`) — it does
not return the stored timestamp ceiling. -/
theorem c8_max_version_panics_cex :
    (Table.open_in_memory tbuf1 1).isOk = true ∧
    (Table.open_in_memory tbuf1 1).bind TableInner.max_version =
      .panicked "not implemented" := by
  constructor <;> decide

/-- Claim C8 (amended): `TableInner::max_version` (and hence
`Table::max_version`) is unimplemented and panics for every table. -/
theorem c8_max_version_amended (t : TableInner) :
    t.max_version = .panicked "not implemented" := rfl

/-- Claim C9 (counterexample): `Wal::write_entry` panics
(`unimplemented!`) on a concrete entry instead of returning a `Result`
after appending the encoded record. -/
theorem c9_write_entry_panics_cex :
    Wal.write_entry { file_id := 1, path := "1.wal" } { key := [107], value := [118] } =
      .panicked "not implemented" := rfl

/-- Claim C9 (amended): `Wal::write_entry` is unimplemented and panics
for every WAL segment and entry; nothing is appended. -/
theorem c9_write_entry_amended (w : Wal) (e : Entry) :
    w.write_entry e = .panicked "not implemented" := rfl

theorem parseU64_some_iff (s : List Char) (id : Nat) :
    parseU64 s = some id ↔ rustParsesU64 s id := by
  constructor
  · intro h
    unfold parseU64 at h
    rcases s with _ | ⟨c, rest⟩
    · simp [stripPlus] at h
    · by_cases hc : c = '+'
      · subst hc
        simp only [stripPlus, if_pos] at h
        by_cases h1 : rest.isEmpty = true <;> simp [h1] at h
        exact ⟨rest, Or.inr rfl, fun hr => h1 (by simp [hr]),
          h.1, h.2.2, h.2.2 ▸ h.2.1⟩
      · simp only [stripPlus, if_neg hc] at h
        simp at h
        refine ⟨c :: rest, Or.inl rfl, by simp, ?_, h.2.2, h.2.2 ▸ h.2.1⟩
        intro x hx
        rcases List.mem_cons.mp hx with rfl | hx2
        · exact h.1.1
        · exact h.1.2 x hx2
  · rintro ⟨ds, hds, hne, hdig, hval, hlt⟩
    have hall : ds.all Char.isDigit = true := List.all_eq_true.mpr hdig
    have hnemp : ds.isEmpty = false := by
      cases ds with
      | nil => exact absurd rfl hne
      | cons c r => rfl
    cases hds with
    | inl heq =>
      have hsp : stripPlus ds = ds := by
        cases ds with
        | nil => rfl
        | cons c r =>
          have hd : c.isDigit = true := hdig c (by simp)
          have hcne : c ≠ '+' := by
            intro hplus
            rw [hplus] at hd
            exact absurd hd (by decide)
          simp [stripPlus, hcne]
      rw [heq]
      unfold parseU64
      simp only [hsp]
      simp [hnemp, hall, hval]
      omega
    | inr heq =>
      have hsp : stripPlus ('+' :: ds) = ds := by simp [stripPlus]
      rw [heq]
      unfold parseU64
      simp only [hsp]
      simp [hnemp, hall, hval]
      omega

/-- Claim C4 (counterexample): `parse_file_id("+123.sst")` returns
`Ok(123)` although the stem `"+123"` is not the base-10 decimal
representation of 123 (it carries a sign character). -/
theorem c4_plus_sign_accepted :
    parse_file_id "+123.sst" = .ok 123 ∧
    ¬ stemIsDecimalU64 ['+', '1', '2', '3'] 123 := by
  constructor
  · decide
  · decide

/-- Claim C4 (amended): `parse_file_id(name)` returns `Ok(id)` exactly
when `name` ends in `".sst"` and the stem is accepted by Rust's
`u64::from_str` — an optional leading `'+'` followed by one or more
ASCII digits denoting `id < 2^64` (so leading zeros and a plus sign are
also accepted); every other name yields `InvalidFilename`. -/
theorem c4_parse_file_id_amended (name : String) :
    (∀ id, parse_file_id name = .ok id ↔
      (sstSuffix name.data = true ∧
        rustParsesU64 (name.data.take (name.data.length - 4)) id)) ∧
    ((∀ id, ¬ (sstSuffix name.data = true ∧
        rustParsesU64 (name.data.take (name.data.length - 4)) id)) →
      parse_file_id name = .err (.InvalidFilename name)) := by
  constructor
  · intro id
    unfold parse_file_id
    by_cases hs : sstSuffix name.data
    · rw [if_neg (by simp [hs])]
      cases hp : parseU64 (name.data.take (name.data.length - 4)) with
      | none =>
        constructor
        · intro h
          simp at h
        · rintro ⟨-, hr⟩
          rw [(parseU64_some_iff _ _).mpr hr] at hp
          cases hp
      | some v =>
        constructor
        · intro h
          injection h with h
          exact ⟨hs, (parseU64_some_iff _ _).mp (h ▸ hp)⟩
        · rintro ⟨-, hr⟩
          rw [(parseU64_some_iff _ _).mpr hr] at hp
          injection hp with hp
          rw [hp]
    · rw [if_pos (by simp [hs])]
      simp [hs]
  · intro hforall
    unfold parse_file_id
    by_cases hs : sstSuffix name.data
    · rw [if_neg (by simp [hs])]
      cases hp : parseU64 (name.data.take (name.data.length - 4)) with
      | none => rfl
      | some v =>
        exact absurd ⟨hs, (parseU64_some_iff _ _).mp hp⟩ (hforall v)
    · rw [if_pos (by simp [hs])]

/-- Claim C4 witness: concrete applications of the amended theorem —
`"42.sst"` parses to id 42 and `"abc"` is rejected. -/
theorem c4_parse_file_id_witness :
    parse_file_id "42.sst" = .ok 42 ∧
    parse_file_id "abc" = .err (.InvalidFilename "abc") := by
  constructor
  · exact ((c4_parse_file_id_amended "42.sst").1 42).mpr
      ⟨by decide, ⟨['4', '2'], Or.inl (by decide), by decide, by decide, by decide, by decide⟩⟩
  · exact (c4_parse_file_id_amended "abc").2
      (fun id h => absurd h.1 (by decide))

/-- Claim C5: `block(idx)` returns the `TableRead("block out of index")`
error whenever `idx >= offsets_length()`; and whenever it returns a
block `b`, then `idx < offsets_length()`, the bytes read are exactly
`[offset, offset+len)` of the `idx`-th block offset (`blockRaw`), `b.data`
is the prefix of those bytes up to and including the entry-count field,
and `b.entry_offsets` has exactly `num_entries` elements, where
`num_entries` is the big-endian u32 stored before the checksum. -/
theorem c5_block (t : TableInner) (idx : Nat) (uc : Bool) :
    (t.offsets_length ≤ idx → t.block idx uc = .err (.TableRead .blockOutOfIndex)) ∧
    (∀ b, t.block idx uc = .ok b →
      idx < t.offsets_length ∧
      (t.blockRaw idx).map (fun raw => raw.take (raw.length - 4 - b.checksum_len)) =
        .ok b.data ∧
      (t.blockRaw idx).map
          (fun raw => getU32 ((raw.drop (raw.length - 8 - b.checksum_len)).take 4)) =
        .ok b.entry_offsets.length) := by
  constructor
  · intro h
    unfold TableInner.block
    rw [if_pos h]
  · intro b hb
    unfold TableInner.block at hb
    by_cases hlen : t.offsets_length ≤ idx
    · rw [if_pos hlen] at hb
      exact RResult.noConfusion hb
    · rw [if_neg hlen] at hb
      refine ⟨by omega, ?_⟩
      cases ho : t.offsets idx with
      | none =>
        rw [ho] at hb
        exact RResult.noConfusion hb
      | some bo =>
        rw [ho] at hb
        simp only [RResult.monad_bind] at hb
        cases hr : t.read bo.offset bo.len with
        | err e =>
          rw [hr] at hb
          exact RResult.noConfusion hb
        | panicked m =>
          rw [hr] at hb
          exact RResult.noConfusion hb
        | ok raw =>
          rw [hr] at hb
          simp only [RResult.ok_bind] at hb
          cases h1 : checkedSub raw.length 4 with
          | err e =>
            rw [h1] at hb
            exact RResult.noConfusion hb
          | panicked m =>
            rw [h1] at hb
            exact RResult.noConfusion hb
          | ok rp1 =>
            rw [h1] at hb
            simp only [RResult.ok_bind] at hb
            obtain ⟨hle1, hrp1⟩ := checkedSub_ok.mp h1
            by_cases hchk : raw.length < getU32 ((raw.drop rp1).take 4)
            · rw [if_pos hchk] at hb
              exact RResult.noConfusion hb
            · rw [if_neg hchk] at hb
              cases h2 : checkedSub rp1 (getU32 ((raw.drop rp1).take 4)) with
              | err e =>
                rw [h2] at hb
                exact RResult.noConfusion hb
              | panicked m =>
                rw [h2] at hb
                exact RResult.noConfusion hb
              | ok rp2 =>
                rw [h2] at hb
                simp only [RResult.ok_bind] at hb
                obtain ⟨hle2, hrp2⟩ := checkedSub_ok.mp h2
                cases h3 : checkedSub rp2 4 with
                | err e =>
                  rw [h3] at hb
                  exact RResult.noConfusion hb
                | panicked m =>
                  rw [h3] at hb
                  exact RResult.noConfusion hb
                | ok rp3 =>
                  rw [h3] at hb
                  simp only [RResult.ok_bind] at hb
                  obtain ⟨hle3, hrp3⟩ := checkedSub_ok.mp h3
                  cases h4 : checkedSub rp3 (getU32 ((raw.drop rp3).take 4) * 4) with
                  | err e =>
                    rw [h4] at hb
                    exact RResult.noConfusion hb
                  | panicked m =>
                    rw [h4] at hb
                    exact RResult.noConfusion hb
                  | ok eis =>
                    rw [h4] at hb
                    simp only [RResult.ok_bind, RResult.ok.injEq] at hb
                    subst hb
                    unfold TableInner.blockRaw
                    rw [ho]
                    simp only [hr, RResult.map, RResult.ok.injEq]
                    constructor
                    · have harith : raw.length - 4 - getU32 ((raw.drop rp1).take 4) =
                          rp3 + 4 := by omega
                      rw [harith]
                    · rw [decodeOffsets_length]
                      have harith : raw.length - 8 - getU32 ((raw.drop rp1).take 4) = rp3 := by
                        omega
                      rw [harith]

set_option maxRecDepth 400000 in
/-- Claim C5 witness: on the concrete opened table of `tbuf1`, index 5 is
rejected and index 0 yields the concrete block with the claimed shape. -/
theorem c5_block_witness :
    (tfullT1.offsets_length ≤ 5 ∧
      tfullT1.block 5 true = .err (.TableRead .blockOutOfIndex)) ∧
    (tfullT1.block 0 true = .ok blockT1 ∧
      (0 < tfullT1.offsets_length ∧
        (tfullT1.blockRaw 0).map
            (fun raw => raw.take (raw.length - 4 - blockT1.checksum_len)) =
          .ok blockT1.data ∧
        (tfullT1.blockRaw 0).map
            (fun raw => getU32 ((raw.drop (raw.length - 8 - blockT1.checksum_len)).take 4)) =
          .ok blockT1.entry_offsets.length)) := by
  have hb : tfullT1.block 0 true = .ok blockT1 := by decide
  exact ⟨⟨by decide, (c5_block tfullT1 5 true).1 (by decide)⟩,
    ⟨hb, (c5_block tfullT1 0 true).2 blockT1 hb⟩⟩

theorem RResult.bind_ok_inv {α β : Type} {x : RResult α} {f : α → RResult β} {b : β}
    (h : RResult.bind x f = .ok b) : ∃ a, x = .ok a ∧ f a = .ok b := by
  cases x with
  | ok a => exact ⟨a, rfl, h⟩
  | err e => exact RResult.noConfusion h
  | panicked m => exact RResult.noConfusion h

/-- inversion of a successful `init_index` run: the footer fields were
read at their tail positions, the checksum-length guard passed, the
decoded `idx_len`/`index_start` are stored, the backing store and size
are untouched, and the returned block offset heads the offsets array. -/
theorem init_index_ok_struct {t t2 : TableInner} {ko : BlockOffset}
    (h : t.init_index = .ok (t2, ko)) :
    ∃ buf1 buf2 rest,
      4 ≤ t.table_size ∧
      t.read (t.table_size - 4) 4 = .ok buf1 ∧
      getU32 buf1 < 2 ^ 31 ∧
      t.read (t.table_size - 4 - getU32 buf1 - 4) 4 = .ok buf2 ∧
      t2.index_len = getU32 buf2 ∧
      t2.index_start = t.table_size - 4 - getU32 buf1 - 4 - getU32 buf2 ∧
      t2.file = t.file ∧ t2.table_size = t.table_size ∧
      t2.index.offsets = ko :: rest := by
  unfold TableInner.init_index at h
  simp only [RResult.monad_bind] at h
  obtain ⟨rp1, h1, h⟩ := RResult.bind_ok_inv h
  obtain ⟨hle1, hrp1⟩ := checkedSub_ok.mp h1
  try simp only [] at h
  obtain ⟨buf1, h2, h⟩ := RResult.bind_ok_inv h
  try simp only [] at h
  by_cases hbig : 2 ^ 31 ≤ getU32 buf1
  · rw [if_pos hbig] at h
    exact RResult.noConfusion h
  · rw [if_neg hbig] at h
    try simp only [RResult.monad_bind] at h
    obtain ⟨rp2, h3, h⟩ := RResult.bind_ok_inv h
    obtain ⟨hle2, hrp2⟩ := checkedSub_ok.mp h3
    try simp only [] at h
    obtain ⟨cbuf, h4, h⟩ := RResult.bind_ok_inv h
    try simp only [] at h
    obtain ⟨chk, h5, h⟩ := RResult.bind_ok_inv h
    try simp only [] at h
    obtain ⟨rp3, h6, h⟩ := RResult.bind_ok_inv h
    obtain ⟨hle3, hrp3⟩ := checkedSub_ok.mp h6
    try simp only [] at h
    obtain ⟨buf2, h7, h⟩ := RResult.bind_ok_inv h
    try simp only [] at h
    obtain ⟨rp4, h8, h⟩ := RResult.bind_ok_inv h
    obtain ⟨hle4, hrp4⟩ := checkedSub_ok.mp h8
    try simp only [] at h
    obtain ⟨idata, h9, h⟩ := RResult.bind_ok_inv h
    try simp only [] at h
    obtain ⟨u, h10, h⟩ := RResult.bind_ok_inv h
    try simp only [] at h
    obtain ⟨idx, h11, h⟩ := RResult.bind_ok_inv h
    try simp only [] at h
    cases hofs : idx.offsets with
    | nil =>
      simp only [hofs] at h
      exact RResult.noConfusion h
    | cons koh rest =>
      simp only [hofs, RResult.ok.injEq, Prod.mk.injEq] at h
      obtain ⟨ht2, hko⟩ := h
      subst ht2
      subst hko
      refine ⟨buf1, buf2, rest, hle1, ?_, by omega, ?_, ?_, ?_, rfl, rfl, hofs⟩
      · rw [hrp1] at h2
        exact h2
      · have hpos : rp3 = t.table_size - 4 - getU32 buf1 - 4 := by omega
        rw [hpos] at h7
        exact h7
      · rfl
      · simp only []
        omega

/-- inversion of a successful `block` run: the block offset was looked
up, the raw range read, the tail guards passed, and the entry-offsets
array decoded from the little-endian array region. -/
theorem block_ok_struct {t : TableInner} {idx : Nat} {uc : Bool} {b : Block}
    (h : t.block idx uc = .ok b) :
    ∃ bo raw,
      t.offsets idx = some bo ∧
      t.read bo.offset bo.len = .ok raw ∧
      b.checksum_len = getU32 ((raw.drop (raw.length - 4)).take 4) ∧
      4 + b.checksum_len + 4 ≤ raw.length ∧
      4 * getU32 ((raw.drop (raw.length - 8 - b.checksum_len)).take 4) ≤
        raw.length - 8 - b.checksum_len ∧
      b.entry_offsets =
        decodeOffsets
          ((raw.drop (raw.length - 8 - b.checksum_len -
            4 * getU32 ((raw.drop (raw.length - 8 - b.checksum_len)).take 4))).take
              (getU32 ((raw.drop (raw.length - 8 - b.checksum_len)).take 4) * 4))
          (getU32 ((raw.drop (raw.length - 8 - b.checksum_len)).take 4)) := by
  unfold TableInner.block at h
  by_cases hlen : t.offsets_length ≤ idx
  · rw [if_pos hlen] at h
    exact RResult.noConfusion h
  · rw [if_neg hlen] at h
    cases ho : t.offsets idx with
    | none =>
      rw [ho] at h
      exact RResult.noConfusion h
    | some bo =>
      rw [ho] at h
      simp only [RResult.monad_bind] at h
      obtain ⟨raw, hr, h⟩ := RResult.bind_ok_inv h
      try simp only [] at h
      obtain ⟨rp1, h1, h⟩ := RResult.bind_ok_inv h
      obtain ⟨hle1, hrp1⟩ := checkedSub_ok.mp h1
      try simp only [] at h
      by_cases hchk : raw.length < getU32 ((raw.drop rp1).take 4)
      · rw [if_pos hchk] at h
        exact RResult.noConfusion h
      · rw [if_neg hchk] at h
        try simp only [RResult.monad_bind] at h
        obtain ⟨rp2, h2, h⟩ := RResult.bind_ok_inv h
        obtain ⟨hle2, hrp2⟩ := checkedSub_ok.mp h2
        try simp only [] at h
        obtain ⟨rp3, h3, h⟩ := RResult.bind_ok_inv h
        obtain ⟨hle3, hrp3⟩ := checkedSub_ok.mp h3
        try simp only [] at h
        obtain ⟨eis, h4, h⟩ := RResult.bind_ok_inv h
        obtain ⟨hle4, heis⟩ := checkedSub_ok.mp h4
        try simp only [] at h
        simp only [RResult.ok.injEq] at h
        subst hrp1
        subst hrp2
        subst hrp3
        subst heis
        subst h
        simp only []
        have e1 : raw.length - 8 - getU32 ((raw.drop (raw.length - 4)).take 4) =
            raw.length - 4 - getU32 ((raw.drop (raw.length - 4)).take 4) - 4 := by omega
        refine ⟨bo, raw, ?_, ?_, ?_, ?_, ?_, ?_⟩
        · rfl
        · exact hr
        · rfl
        · omega
        · rw [e1]
          omega
        · rw [e1]
          have e2 : raw.length - 4 - getU32 ((raw.drop (raw.length - 4)).take 4) - 4 -
              4 * getU32 ((raw.drop (raw.length - 4 -
                getU32 ((raw.drop (raw.length - 4)).take 4) - 4)).take 4) =
              raw.length - 4 - getU32 ((raw.drop (raw.length - 4)).take 4) - 4 -
              getU32 ((raw.drop (raw.length - 4 -
                getU32 ((raw.drop (raw.length - 4)).take 4) - 4)).take 4) * 4 := by
            omega
          rw [e2]

/-- Claim C6: on the read path every framing length field is decoded
big-endian and every entry-offsets element little-endian: (i) `getU32` /
`getU32le` are the big- and little-endian u32 decoders; (ii) `init_index`
stores `idx_len` as the big-endian u32 read just below the checksum whose
length is the big-endian u32 in the last 4 bytes; (iii) `block` decodes
`chksum_len` and the entry count `n` big-endian from the block tail and
each of the `n` entry-offset elements little-endian. -/
theorem c6_endianness :
    (∀ a b c d rest,
      getU32 (a :: b :: c :: d :: rest) =
        (a % 256) * 2 ^ 24 + (b % 256) * 2 ^ 16 + (c % 256) * 2 ^ 8 + d % 256 ∧
      getU32le (a :: b :: c :: d :: rest) =
        (d % 256) * 2 ^ 24 + (c % 256) * 2 ^ 16 + (b % 256) * 2 ^ 8 + a % 256) ∧
    (∀ (t t2 : TableInner) (ko : BlockOffset) (data : List Nat),
      t.file = .memory data → t.table_size = data.length →
      t.init_index = .ok (t2, ko) →
      t2.index_len =
        getU32 (data.drop (data.length - 8 - getU32 (data.drop (data.length - 4)))) ∧
      t2.index_start =
        data.length - 8 - getU32 (data.drop (data.length - 4)) - t2.index_len) ∧
    (∀ (t : TableInner) (idx : Nat) (uc : Bool) (b : Block) (raw : List Nat),
      t.block idx uc = .ok b → t.blockRaw idx = .ok raw →
      b.checksum_len = getU32 (raw.drop (raw.length - 4)) ∧
      b.entry_offsets.length = getU32 (raw.drop (raw.length - 8 - b.checksum_len)) ∧
      ∀ i, i < b.entry_offsets.length →
        b.entry_offsets.getD i 0 =
          getU32le ((raw.drop (raw.length - 8 - b.checksum_len -
            4 * b.entry_offsets.length + 4 * i)).take 4)) := by
  refine ⟨fun a b c d rest => ⟨rfl, rfl⟩, ?_, ?_⟩
  · intro t t2 ko data hfile hsize h
    obtain ⟨buf1, buf2, rest, hle, hr1, hsmall, hr2, hil, his, -, -, -⟩ :=
      init_index_ok_struct h
    rw [hsize] at hr1 hr2 his
    unfold TableInner.read at hr1 hr2
    rw [hfile] at hr1 hr2
    obtain ⟨-, hbuf1⟩ := MmapFile.bytes_ok.mp hr1
    obtain ⟨-, hbuf2⟩ := MmapFile.bytes_ok.mp hr2
    simp only [MmapFile.dataOf] at hbuf1 hbuf2
    have hg1 : getU32 buf1 = getU32 (data.drop (data.length - 4)) := by
      rw [hbuf1, getU32_take4]
    have e2 : data.length - 4 - getU32 buf1 - 4 =
        data.length - 8 - getU32 (data.drop (data.length - 4)) := by omega
    have hg2 : getU32 buf2 =
        getU32 (data.drop (data.length - 8 - getU32 (data.drop (data.length - 4)))) := by
      rw [hbuf2, getU32_take4, e2]
    refine ⟨by rw [hil, hg2], ?_⟩
    rw [his, hil, hg2, ← hg1]
    omega
  · intro t idx uc b raw hb hraw
    obtain ⟨bo, raw2, ho, hr, hcsl, hsz, hn4, hoffs⟩ := block_ok_struct hb
    unfold TableInner.blockRaw at hraw
    simp only [ho] at hraw
    rw [hr] at hraw
    injection hraw with hraw
    subst raw2
    have hc : b.checksum_len = getU32 (raw.drop (raw.length - 4)) := by
      rw [hcsl, getU32_take4]
    refine ⟨hc, ?_, ?_⟩
    · rw [hoffs, decodeOffsets_length, getU32_take4]
    · intro i hi
      rw [hoffs, decodeOffsets_length] at hi
      rw [hoffs, decodeOffsets_getD _ _ _ hi]
      rw [List.drop_take, List.drop_drop, List.take_take]
      have hmin : min 4
          (getU32 ((raw.drop (raw.length - 8 - b.checksum_len)).take 4) * 4 - 4 * i) = 4 := by
        omega
      rw [hmin]
      rw [decodeOffsets_length]

set_option maxRecDepth 400000 in
/-- Claim C6 witness: the endianness facts instantiated on the concrete
table `tbuf1` (footer fields, block tail fields and the single
entry-offset element). -/
theorem c6_endianness_witness :
    (getU32 [0, 0, 0, 8] =
        (0 % 256) * 2 ^ 24 + (0 % 256) * 2 ^ 16 + (0 % 256) * 2 ^ 8 + 8 % 256 ∧
      getU32le [0, 0, 0, 8] =
        (8 % 256) * 2 ^ 24 + (0 % 256) * 2 ^ 16 + (0 % 256) * 2 ^ 8 + 0 % 256) ∧
    (innerT1.file = .memory tbuf1 ∧ innerT1.table_size = tbuf1.length ∧
      innerT1.init_index = .ok (tmidT1, { key := [97, 98], offset := 0, len := 26 }) ∧
      tmidT1.index_len =
        getU32 (tbuf1.drop (tbuf1.length - 8 - getU32 (tbuf1.drop (tbuf1.length - 4)))) ∧
      tmidT1.index_start =
        tbuf1.length - 8 - getU32 (tbuf1.drop (tbuf1.length - 4)) - tmidT1.index_len) ∧
    (tfullT1.block 0 true = .ok blockT1 ∧ tfullT1.blockRaw 0 = .ok blockRawT1 ∧
      0 < blockT1.entry_offsets.length ∧
      blockT1.entry_offsets.getD 0 0 =
        getU32le ((blockRawT1.drop (blockRawT1.length - 8 - blockT1.checksum_len -
          4 * blockT1.entry_offsets.length + 4 * 0)).take 4)) := by
  refine ⟨c6_endianness.1 0 0 0 8 [], ?_, ?_⟩
  · have hfile : innerT1.file = .memory tbuf1 := rfl
    have hsize : innerT1.table_size = tbuf1.length := by decide
    have hinit : innerT1.init_index =
        .ok (tmidT1, { key := [97, 98], offset := 0, len := 26 }) := by decide
    have h2 := c6_endianness.2.1 innerT1 tmidT1 _ tbuf1 hfile hsize hinit
    exact ⟨hfile, hsize, hinit, h2.1, h2.2⟩
  · have hb : tfullT1.block 0 true = .ok blockT1 := by decide
    have hraw : tfullT1.blockRaw 0 = .ok blockRawT1 := by decide
    have h3 := c6_endianness.2.2 tfullT1 0 true blockT1 blockRawT1 hb hraw
    have hlen0 : 0 < blockT1.entry_offsets.length := by decide
    exact ⟨hb, hraw, hlen0, h3.2.2 0 hlen0⟩

/-- Claim C7: after a successful `open_in_memory`, `smallest` equals the
stored base key of block 0 (the head of the index's offsets array), and
`biggest` equals the key decoded for the last entry of the last block by
the reversed no-cache iterator probe; moreover, whenever block 0's first
entry stores the full base key with `overlap_len = 0` (the builder
invariant for tables built from a non-empty sorted stream), `smallest`
also equals the key of the first entry of the first block. -/
theorem c7_smallest_biggest (data : List Nat) (id : Nat) (t : TableInner)
    (hopen : Table.open_in_memory data id = .ok t) :
    (∃ ko rest, t.index.offsets = ko :: rest ∧ t.smallest = ko.key) ∧
    (∃ blk, t.block (t.offsets_length - 1) false = .ok blk ∧
      blk.entry_offsets.length ≠ 0 ∧
      blk.entryKey (blk.entry_offsets.length - 1) = some t.biggest) ∧
    (∀ (b0 : Block) (ko : BlockOffset) (rest : List BlockOffset),
      t.index.offsets = ko :: rest → t.block 0 false = .ok b0 →
      parseEntry (b0.entryRegion 0) = some (0, ko.key) →
      b0.entryKey 0 = some t.smallest) := by
  unfold Table.open_in_memory at hopen
  try simp only [] at hopen
  unfold TableInner.init_biggest_and_smallest at hopen
  simp only [RResult.monad_bind] at hopen
  obtain ⟨tko, hii, hopen⟩ := RResult.bind_ok_inv hopen
  obtain ⟨t1, ko⟩ := tko
  try simp only [] at hopen
  cases hit : TableInner.iterLastKey { t1 with smallest := ko.key } with
  | none =>
    simp only [hit] at hopen
    exact RResult.noConfusion hopen
  | some k =>
    simp only [hit, RResult.ok.injEq] at hopen
    obtain ⟨buf1, buf2, rest, -, -, -, -, -, -, -, -, hofs⟩ := init_index_ok_struct hii
    subst hopen
    unfold TableInner.iterLastKey at hit
    by_cases hz : TableInner.offsets_length { t1 with smallest := ko.key } = 0
    · rw [if_pos hz] at hit
      exact Option.noConfusion hit
    · rw [if_neg hz] at hit
      cases hblk : TableInner.block { t1 with smallest := ko.key }
          (TableInner.offsets_length { t1 with smallest := ko.key } - 1) false with
      | err e =>
        simp only [hblk] at hit
        exact Option.noConfusion hit
      | panicked m =>
        simp only [hblk] at hit
        exact Option.noConfusion hit
      | ok b =>
        simp only [hblk] at hit
        by_cases hz2 : b.entry_offsets.length = 0
        · rw [if_pos hz2] at hit
          exact Option.noConfusion hit
        · rw [if_neg hz2] at hit
          refine ⟨⟨ko, rest, hofs, rfl⟩, ⟨b, hblk, hz2, hit⟩, ?_⟩
          intro b0 koh resth hofsh hb0 hparse
          have hofs2 : t1.index.offsets = koh :: resth := hofsh
          rw [hofs] at hofs2
          injection hofs2 with hk hrest
          subst hk
          unfold Block.entryKey
          simp only [Block.baseKey, hparse, Option.map_some, Option.bind_some,
            Option.bind_eq_bind]
          simp [hparse]

set_option maxRecDepth 400000 in
/-- Claim C7 witness: on the concrete table `tbuf1`, smallest and biggest
are both the key `"ab"` of its single entry, with the claimed shape. -/
theorem c7_smallest_biggest_witness :
    Table.open_in_memory tbuf1 1 = .ok tfullT1 ∧
    ((∃ ko rest, tfullT1.index.offsets = ko :: rest ∧ tfullT1.smallest = ko.key) ∧
      (∃ blk, tfullT1.block (tfullT1.offsets_length - 1) false = .ok blk ∧
        blk.entry_offsets.length ≠ 0 ∧
        blk.entryKey (blk.entry_offsets.length - 1) = some tfullT1.biggest) ∧
      (∀ (b0 : Block) (ko : BlockOffset) (rest : List BlockOffset),
        tfullT1.index.offsets = ko :: rest → tfullT1.block 0 false = .ok b0 →
        parseEntry (b0.entryRegion 0) = some (0, ko.key) →
        b0.entryKey 0 = some tfullT1.smallest)) := by
  have h : Table.open_in_memory tbuf1 1 = .ok tfullT1 := by decide
  exact ⟨h, c7_smallest_biggest tbuf1 1 tfullT1 h⟩

/-- shorthand: a result that is not the `TableRead("checksum length less
than zero")` error. -/
abbrev noCLN {α : Type} (r : RResult α) : Prop :=
  r ≠ .err (.TableRead .checksumLenNegative)

theorem noCLN_bind {α β : Type} {x : RResult α} {f : α → RResult β}
    (hx : noCLN x) (hf : ∀ a, noCLN (f a)) : noCLN (RResult.bind x f) := by
  cases x with
  | ok a =>
    rw [RResult.ok_bind]
    exact hf a
  | err e =>
    rw [RResult.err_bind]
    intro hc
    injection hc with he
    exact hx (by rw [he])
  | panicked m =>
    rw [RResult.panicked_bind]
    exact fun hc => RResult.noConfusion hc

theorem noCLN_bytes (f : MmapFile) (o s : Nat) : noCLN (f.bytes o s) := by
  cases f <;> simp only [MmapFile.bytes] <;> split <;> simp

theorem noCLN_read (t : TableInner) (o s : Nat) : noCLN (t.read o s) :=
  noCLN_bytes t.file o s

theorem noCLN_checkedSub (a b : Nat) : noCLN (checkedSub a b) := by
  unfold checkedSub
  split <;> simp

theorem noCLN_checksumDecode (l : List Nat) : noCLN (checksumDecode l) := by
  unfold checksumDecode
  cases decodeChecksum l <;> simp

theorem noCLN_verify (d : List Nat) (c : Checksum) : noCLN (verify_checksum d c) := by
  unfold verify_checksum
  split
  · split <;> simp
  · simp

theorem noCLN_read_table_index (t : TableInner) : noCLN t.read_table_index := by
  unfold TableInner.read_table_index
  simp only [RResult.monad_bind]
  apply noCLN_bind (noCLN_read t _ _)
  intro d
  cases decodeTableIndex d <;> simp

theorem checkedSub_no_err (a b : Nat) {e : Error} : checkedSub a b ≠ .err e := by
  unfold checkedSub
  split <;> simp

/-- if `init_index` fails with the checksum-length error, then the error
came from the guard: the trailing 4 bytes were read successfully and
decode to a value of at least `2^31`. -/
theorem init_index_CLN_inv {t : TableInner}
    (h : t.init_index = .err (.TableRead .checksumLenNegative)) :
    ∃ buf, t.read (t.table_size - 4) 4 = .ok buf ∧ 2 ^ 31 ≤ getU32 buf := by
  unfold TableInner.init_index at h
  simp only [RResult.monad_bind] at h
  cases h1 : checkedSub t.table_size 4 with
  | err e =>
    exact absurd h1 (checkedSub_no_err _ _)
  | panicked m =>
    rw [h1] at h
    simp only [RResult.panicked_bind] at h
    exact RResult.noConfusion h
  | ok rp =>
    rw [h1] at h
    simp only [RResult.ok_bind] at h
    obtain ⟨hle, hrp⟩ := checkedSub_ok.mp h1
    subst hrp
    cases h2 : t.read (t.table_size - 4) 4 with
    | err e =>
      rw [h2] at h
      simp only [RResult.err_bind] at h
      injection h with he
      subst he
      exact absurd h2 (noCLN_read t _ _)
    | panicked m =>
      rw [h2] at h
      simp only [RResult.panicked_bind] at h
      exact RResult.noConfusion h
    | ok buf =>
      rw [h2] at h
      simp only [RResult.ok_bind] at h
      by_cases hbig : 2 ^ 31 ≤ getU32 buf
      · exact ⟨buf, rfl, hbig⟩
      · rw [if_neg hbig] at h
        exact absurd h (by
          apply noCLN_bind (noCLN_checkedSub _ _)
          intro rp2
          try simp only []
          apply noCLN_bind (noCLN_read _ _ _)
          intro cbuf
          try simp only []
          apply noCLN_bind (noCLN_checksumDecode _)
          intro chk
          try simp only []
          apply noCLN_bind (noCLN_checkedSub _ _)
          intro rp3
          try simp only []
          apply noCLN_bind (noCLN_read _ _ _)
          intro buf2
          try simp only []
          apply noCLN_bind (noCLN_checkedSub _ _)
          intro rp4
          try simp only []
          apply noCLN_bind (noCLN_read _ _ _)
          intro idata
          try simp only []
          apply noCLN_bind (noCLN_verify _ _)
          intro u
          try simp only []
          apply noCLN_bind (noCLN_read_table_index _)
          intro idx
          try simp only []
          cases idx.offsets <;> simp)

/-- conversely, if the trailing four bytes read successfully and decode
big-endian to at least `2^31`, `init_index` fails with exactly the
checksum-length error. -/
theorem init_index_CLN_fwd {t : TableInner} (buf : List Nat)
    (h1 : checkedSub t.table_size 4 = .ok (t.table_size - 4))
    (h2 : t.read (t.table_size - 4) 4 = .ok buf)
    (hbig : 2 ^ 31 ≤ getU32 buf) :
    t.init_index = .err (.TableRead .checksumLenNegative) := by
  unfold TableInner.init_index
  simp only [RResult.monad_bind]
  rw [h1]
  simp only [RResult.ok_bind]
  rw [h2]
  simp only [RResult.ok_bind]
  rw [if_pos hbig]

theorem ibs_err {t : TableInner} {e : Error} (h : t.init_index = .err e) :
    t.init_biggest_and_smallest = .err e := by
  unfold TableInner.init_biggest_and_smallest
  simp only [RResult.monad_bind]
  rw [h]
  rfl

theorem ibs_CLN_inv {t : TableInner}
    (h : t.init_biggest_and_smallest = .err (.TableRead .checksumLenNegative)) :
    t.init_index = .err (.TableRead .checksumLenNegative) := by
  unfold TableInner.init_biggest_and_smallest at h
  simp only [RResult.monad_bind] at h
  cases hii : t.init_index with
  | err e =>
    rw [hii] at h
    simp only [RResult.err_bind] at h
    injection h with he
    rw [he]
  | panicked m =>
    rw [hii] at h
    simp only [RResult.panicked_bind] at h
    exact RResult.noConfusion h
  | ok tko =>
    rw [hii] at h
    simp only [RResult.ok_bind] at h
    obtain ⟨t1, ko⟩ := tko
    try simp only [] at h
    exfalso
    cases hx : TableInner.iterLastKey { t1 with smallest := ko.key } <;>
      simp [hx] at h

/-- Claim C10: with at least 4 bytes of table data (and a valid file
name on the `open` path), both `open_in_memory` and `open` fail with the
`TableRead("checksum length less than zero")` error exactly when the
big-endian u32 decoded from the last 4 bytes has its high bit set
(value at least `2^31`); a smaller value passes the check and can never
produce that error. -/
theorem c10_checksum_len_check (data : List Nat) (id : Nat) (name : String) (pid : Nat)
    (h4 : 4 ≤ data.length) (hname : parse_file_id name = .ok pid) :
    (2 ^ 31 ≤ getU32 (data.drop (data.length - 4)) →
      Table.open_in_memory data id = .err (.TableRead .checksumLenNegative) ∧
      Table.openFile name data = .err (.TableRead .checksumLenNegative)) ∧
    (getU32 (data.drop (data.length - 4)) < 2 ^ 31 →
      Table.open_in_memory data id ≠ .err (.TableRead .checksumLenNegative) ∧
      Table.openFile name data ≠ .err (.TableRead .checksumLenNegative)) := by
  constructor
  · intro hbig
    constructor
    · unfold Table.open_in_memory
      try simp only []
      apply ibs_err
      refine init_index_CLN_fwd ((data.drop (data.length - 4)).take 4) ?_ ?_ ?_
      · exact checkedSub_ok.mpr ⟨h4, rfl⟩
      · show (MmapFile.memory data).bytes (data.length - 4) 4 =
          .ok ((data.drop (data.length - 4)).take 4)
        exact MmapFile.bytes_ok.mpr
          ⟨by simp only [MmapFile.dataOf]; omega, by simp only [MmapFile.dataOf]⟩
      · rw [getU32_take4]
        exact hbig
    · unfold Table.openFile
      simp only [RResult.monad_bind]
      rw [hname]
      simp only [RResult.ok_bind]
      try simp only []
      apply ibs_err
      refine init_index_CLN_fwd ((data.drop (data.length - 4)).take 4) ?_ ?_ ?_
      · exact checkedSub_ok.mpr ⟨h4, rfl⟩
      · show (MmapFile.file name data).bytes (data.length - 4) 4 =
          .ok ((data.drop (data.length - 4)).take 4)
        exact MmapFile.bytes_ok.mpr
          ⟨by simp only [MmapFile.dataOf]; omega, by simp only [MmapFile.dataOf]⟩
      · rw [getU32_take4]
        exact hbig
  · intro hsmall
    constructor
    · intro hcontra
      unfold Table.open_in_memory at hcontra
      try simp only [] at hcontra
      obtain ⟨buf, hr, hbig⟩ := init_index_CLN_inv (ibs_CLN_inv hcontra)
      have hr2 : (MmapFile.memory data).bytes (data.length - 4) 4 = .ok buf := hr
      obtain ⟨-, hbuf⟩ := MmapFile.bytes_ok.mp hr2
      simp only [MmapFile.dataOf] at hbuf
      rw [hbuf, getU32_take4] at hbig
      omega
    · intro hcontra
      unfold Table.openFile at hcontra
      simp only [RResult.monad_bind, hname, RResult.ok_bind] at hcontra
      try simp only [] at hcontra
      obtain ⟨buf, hr, hbig⟩ := init_index_CLN_inv (ibs_CLN_inv hcontra)
      have hr2 : (MmapFile.file name data).bytes (data.length - 4) 4 = .ok buf := hr
      obtain ⟨-, hbuf⟩ := MmapFile.bytes_ok.mp hr2
      simp only [MmapFile.dataOf] at hbuf
      rw [hbuf, getU32_take4] at hbig
      omega

set_option maxRecDepth 400000 in
/-- Claim C10 witness: the 8-byte buffer ending in `[128,0,0,0]`
(decoding to `2^31`) is rejected with the checksum-length error by both
open paths, while the well-framed `tbuf0` (chksum_len 8) never produces
that error. -/
theorem c10_checksum_len_check_witness :
    (4 ≤ ([0, 0, 0, 0, 128, 0, 0, 0] : List Nat).length ∧
      parse_file_id "1.sst" = .ok 1 ∧
      2 ^ 31 ≤ getU32 (([0, 0, 0, 0, 128, 0, 0, 0] : List Nat).drop
        (([0, 0, 0, 0, 128, 0, 0, 0] : List Nat).length - 4)) ∧
      Table.open_in_memory [0, 0, 0, 0, 128, 0, 0, 0] 1 =
        .err (.TableRead .checksumLenNegative) ∧
      Table.openFile "1.sst" [0, 0, 0, 0, 128, 0, 0, 0] =
        .err (.TableRead .checksumLenNegative)) ∧
    (getU32 (tbuf0.drop (tbuf0.length - 4)) < 2 ^ 31 ∧
      Table.open_in_memory tbuf0 1 ≠ .err (.TableRead .checksumLenNegative) ∧
      Table.openFile "1.sst" tbuf0 ≠ .err (.TableRead .checksumLenNegative)) := by
  have hname : parse_file_id "1.sst" = .ok 1 := by decide
  have h4a : 4 ≤ ([0, 0, 0, 0, 128, 0, 0, 0] : List Nat).length := by decide
  have hbig : 2 ^ 31 ≤ getU32 (([0, 0, 0, 0, 128, 0, 0, 0] : List Nat).drop
      (([0, 0, 0, 0, 128, 0, 0, 0] : List Nat).length - 4)) := by decide
  have hpos := (c10_checksum_len_check [0, 0, 0, 0, 128, 0, 0, 0] 1 "1.sst" 1 h4a hname).1 hbig
  have h4b : 4 ≤ tbuf0.length := by decide
  have hsm : getU32 (tbuf0.drop (tbuf0.length - 4)) < 2 ^ 31 := by decide
  have hneg := (c10_checksum_len_check tbuf0 1 "1.sst" 1 h4b hname).2 hsm
  exact ⟨⟨h4a, hname, hbig, hpos.1, hpos.2⟩, ⟨hsm, hneg.1, hneg.2⟩⟩

end Agate
